import Mathlib

/-!
Verification of the borg portfolio scheduling engine against its
natural-language specification.

The Python sources are shallowly embedded: CPU-second quantities become
exact rationals (`ℚ`), fallible code returns `Except`, the iteration
loops become structural recursion on explicit fuel matching the source's
loop bounds, and external collaborators (solver processes, planners,
survival models, environments) become explicit function-valued
parameters.  Every definition is translated from the source files under
`src/src/python/`; the two entities the claims need whose definitions
are outside those files (`RecycledAttempt`, the environment's
`named_solvers` registry) are modelled from the spec and marked as such
in their doc comments.
-/

/-! ## Pseudo-Boolean domain: `PseudoBooleanSatisfiability.is_final`
    (src/src/python/borg/domains/pb/init) -/

/-- Embedding of `PseudoBooleanSatisfiability.is_final(task, answer)`.
The task is represented by the only part `is_final` consults, the
presence of `task.opb.objective` (`O` is the objective payload type);
an answer, when present, is a pair `(description, certificate)` whose
certificate (`C`) is irrelevant here.  A `None` answer is never final;
otherwise finality is membership of the description in the fixed pair
of strings selected by the presence of an objective. -/
def pb_is_final {O C : Type} (objective : Option O)
    (answer : Option (String × C)) : Bool :=
  match answer with
  | none => false
  | some (description, _) =>
    match objective with
    | none => (["SATISFIABLE", "UNSATISFIABLE"] : List String).contains description
    | some _ => (["OPTIMUM FOUND", "UNSATISFIABLE"] : List String).contains description

/-! ## Lookup indirection (src/src/python/borg/attic/solvers/lookup.py)
    with the spec-modelled environment registry and `RecycledAttempt`. -/

/-- A reference to a solver: either a name-handle (a `LookupSolver`,
identified by the name it was constructed with) or a concrete resolved
solver (identified abstractly by a number). -/
inductive SolverRef where
  | lookup (name : String)
  | concrete (id : Nat)
deriving DecidableEq, Repr

/-- The record of one solver attempt, with the field set of
`borg.solvers.attempts.Attempt`: `{solver, budget, cost, task, answer}`.
`T` is the task type, `A` the answer type. -/
structure PyAttempt (T A : Type) where
  solver : SolverRef
  budget : ℚ
  cost : ℚ
  task : T
  answer : Option A
deriving DecidableEq, Repr

/-- A resolved runnable solver: its `solve(task, budget, random, environment)`
method, abstracted as a function of task, budget and random seed (its use
of the environment is internal to it and not observable here). -/
structure InnerSolver (T A : Type) where
  solve : T → ℚ → Nat → PyAttempt T A

/-- Modelled from the spec: the environment collaborator's `named_solvers`
registry, "a registry mapping solver name → runnable solver", is not under
src/; it is modelled as a partial map from names to runnable solvers. -/
structure SolverEnv (T A : Type) where
  named_solvers : String → Option (InnerSolver T A)

/-- Modelled from the spec: resolution failure.  The spec's error kind
`UnknownSolverError` is raised when a name is absent from the
environment's registry ("fails with `UnknownSolverError` if `name` is
absent from `environment`'s registry"). -/
inductive LookupErr where
  | unknownSolver
deriving DecidableEq, Repr

/-- Embedding of `LookupSolver.look_up(environment)`:
`environment.named_solvers[self._name]`, against the spec-modelled
registry whose lookup failure is `UnknownSolverError`. -/
def lookupSolver_look_up {T A : Type} (name : String) (env : SolverEnv T A) :
    Except LookupErr (InnerSolver T A) :=
  match env.named_solvers name with
  | some s => Except.ok s
  | none => Except.error LookupErr.unknownSolver

/-- Modelled from the spec: `borg.RecycledAttempt` is not under src/.  Its
constructor is called as `RecycledAttempt(self, inner.budget, inner.cost,
inner.task, inner.answer)`, the exact positional signature of
`Attempt.__init__(solver, budget, cost, task, answer)` (which is under
src/ and stores each argument in the field of the same name); per the
spec the returned attempt's `solver` field is "rebound to the name-handle
itself". -/
def recycledAttempt {T A : Type} (solver : SolverRef) (budget cost : ℚ)
    (task : T) (answer : Option A) : PyAttempt T A :=
  ⟨solver, budget, cost, task, answer⟩

/-- Embedding of `LookupSolver.solve(task, budget, random, environment)`:
look up the named solver, run it, and return a `RecycledAttempt` carrying
the lookup handle itself as solver together with the inner attempt's
budget, cost, task and answer. -/
def lookupSolver_solve {T A : Type} (name : String) (task : T) (budget : ℚ)
    (random : Nat) (env : SolverEnv T A) : Except LookupErr (PyAttempt T A) :=
  match lookupSolver_look_up name env with
  | Except.error e => Except.error e
  | Except.ok looked_up =>
    let inner := looked_up.solve task budget random
    Except.ok (recycledAttempt (SolverRef.lookup name) inner.budget inner.cost
      inner.task inner.answer)

/-! ## `LookupPreprocessor.preprocess` and the attempts module namespace
    (src/src/python/borg/attic/solvers/lookup.py,
     src/src/python/borg/solvers/attempts.py) -/

/-- The class names defined at top level by the module
`borg.solvers.attempts` (src/src/python/borg/solvers/attempts.py), in
source order. -/
def attemptsModuleNames : List String :=
  ["AbstractAttempt", "AbstractRunAttempt", "AbstractPreprocessingAttempt",
   "Attempt", "WrappedAttempt", "RunAttempt", "WrappedRunAttempt",
   "PreprocessingAttempt", "WrappedPreprocessingAttempt"]

/-- Python errors arising in the embedded lookup-preprocessor code. -/
inductive PyErr where
  | importError
  | unknownSolver
deriving DecidableEq, Repr

/-- Embedding of a `from borg.solvers.attempts import <name>` statement:
it succeeds exactly when the requested name is defined by that module,
and raises `ImportError` otherwise. -/
def fromAttemptsImport (name : String) : Except PyErr Unit :=
  if attemptsModuleNames.contains name then Except.ok ()
  else Except.error PyErr.importError

/-- The name requested by the import statement at the top of
`LookupPreprocessor.preprocess`. -/
def wrappedPreprocessorAttemptName : String := "WrappedPreprocessorAttempt"

/-- A resolved runnable preprocessor, abstracted (as `InnerSolver` is) to
its `preprocess(task, budget, output_path, random, environment)` method;
`P` is its result type. -/
structure InnerPreprocessor (T P : Type) where
  preprocess : T → ℚ → String → Nat → P

/-- Modelled from the spec (as for solvers): the environment's registry of
named preprocessors. -/
structure PreprocEnv (T P : Type) where
  named_solvers : String → Option (InnerPreprocessor T P)

/-- Embedding of `LookupPreprocessor.preprocess(task, budget, output_path,
random, environment)`.  Its first statement is
`from borg.solvers.attempts import WrappedPreprocessorAttempt`; only
afterwards does it look up the named preprocessor, run it and wrap the
inner attempt.  The wrapped result is represented as the pair of the
name-handle and the inner result. -/
def lookupPreprocessor_preprocess {T P : Type} (name : String) (task : T)
    (budget : ℚ) (output_path : String) (random : Nat) (env : PreprocEnv T P) :
    Except PyErr (SolverRef × P) :=
  match fromAttemptsImport wrappedPreprocessorAttemptName with
  | Except.error e => Except.error e
  | Except.ok _ =>
    match env.named_solvers name with
    | none => Except.error PyErr.unknownSolver
    | some looked_up =>
      Except.ok (SolverRef.lookup name,
        looked_up.preprocess task budget output_path random)

/-! ## The Oracle / Preplanning plan walk
    (src/src/python/borg/portfolios.py, `OraclePortfolio.__call__` lines
    96-110 and `PreplanningPortfolio.__call__` lines 131-145: both walk a
    fixed plan with `this_budget = (b + 1) * interval`, assert
    `remaining - this_budget > -1e-1`, run the solver for `this_budget`,
    and subtract it from `remaining`). -/

/-- One executed step of a plan walk: the plan pair, the duration handed
to `run_then_stop`, and the value of `remaining` before the step. -/
structure WalkStep where
  s : Nat
  b : Nat
  duration : ℚ
  remainingBefore : ℚ
deriving DecidableEq, Repr

/-- Failure mode of the plan walk: the `assert remaining - this_budget > -1e-1`
statement fails. -/
inductive WalkErr where
  | assertFailed
deriving DecidableEq, Repr

/-- Embedding of the shared plan-following loop of `OraclePortfolio.__call__`
and `PreplanningPortfolio.__call__`.  `runAns k s duration` is the answer
of the fresh process started for plan step number `k` on solver `s` and
run with `run_then_stop(duration)`; `fin` is `suite.domain.is_final` with
the task fixed.  Returns the episode result together with the trace of
executed steps. -/
def planWalk {A : Type} (runAns : Nat → Nat → ℚ → Option A)
    (fin : Option A → Bool) (interval : ℚ) :
    Nat → List (Nat × Nat) → ℚ → Except WalkErr (Option A × List WalkStep)
  | _, [], _ => Except.ok (none, [])
  | k, (s, b) :: rest, remaining =>
    let this_budget : ℚ := ((b : ℚ) + 1) * interval
    if remaining - this_budget > -(1/10) then
      let answer := runAns k s this_budget
      let step : WalkStep := ⟨s, b, this_budget, remaining⟩
      if fin answer then Except.ok (answer, [step])
      else
        match planWalk runAns fin interval (k + 1) rest (remaining - this_budget) with
        | Except.error e => Except.error e
        | Except.ok (r, tr) => Except.ok (r, step :: tr)
    else Except.error WalkErr.assertFailed

/-- The total discretized cost of a plan:
`Σ (bin_index + 1) * interval` over its `(solver, bin)` pairs. -/
def planCost (plan : List (Nat × Nat)) (interval : ℚ) : ℚ :=
  (plan.map (fun p => ((p.2 : ℚ) + 1) * interval)).sum

/-! ## Survival-curve construction from outcome counts
    (src/src/python/borg/portfolios.py, `OraclePortfolio.__call__` lines
    85-88: `bins = counts + 1e-16`, `bins[:, -2] += 1e-2`,
    `rates = bins / sum(bins)`,
    `log_survival = log(1 - cumsum(rates[:, :-1]))`).
    One solver's row of the arrays is embedded as a `List ℚ`. -/

/-- The additive smoothing constant `1e-16`. -/
def smoothingEps : ℚ := 1 / 10 ^ 16

/-- The secondary correction `1e-2` added to the next-to-last column
(the final bin of the success range). -/
def terminalBoost : ℚ := 1 / 100

/-- Embedding of `bins = counts.astype(double) + 1e-16; bins[:, -2] += 1e-2`
for one solver's row of historical outcome counts. -/
def smoothedBins (counts : List ℚ) : List ℚ :=
  let withEps := counts.map (fun c => c + smoothingEps)
  withEps.set (withEps.length - 2) (withEps.getD (withEps.length - 2) 0 + terminalBoost)

/-- Embedding of `rates = bins / numpy.sum(bins, axis = -1)[..., None]`. -/
def binRates (counts : List ℚ) : List ℚ :=
  (smoothedBins counts).map (fun x => x / (smoothedBins counts).sum)

/-- The argument of the logarithm at curve bin `j` in
`log_survival = numpy.log(1.0 - numpy.cumsum(rates[:, :-1], axis = -1))`:
`1 - Σ_(k ≤ j) rates[k]`.  The curve's bins are `j = 0 .. counts.length - 2`
(the cumulative sum runs over all columns but the last). -/
def survivalArg (counts : List ℚ) (j : Nat) : ℚ :=
  1 - ((binRates counts).take (j + 1)).sum

/-! ## `PureModelPortfolio.__call__`
    (src/src/python/borg/portfolios.py lines 147-205).  The survival
    model, its conditioning and the planner are abstracted into a single
    function `plan : failures → remaining_b → plan`, standing for
    `planner.plan(initial_model.condition(failures).log_survival[..., :remaining_b],
    model.log_weights)`; solver processes are abstracted into
    `run : iteration → s → b → duration → (answer, cpu cost)`, the cost
    being what the run adds to the accountant's total. -/

/-- Floor of a rational as an integer (`⌊q⌋`), computably. -/
def ratFloorZ (q : ℚ) : ℤ := q.num.fdiv q.den

/-- Ceiling of a rational as an integer, computably; embeds
`int(numpy.ceil(x))` for the nonnegative values arising below. -/
def ratCeilZ (q : ℚ) : ℤ := -(ratFloorZ (-q))

/-- The abstract environment of one `PureModelPortfolio` episode. -/
structure PMEnv (A : Type) where
  budget : ℚ
  interval : ℚ
  plan : List (Nat × Nat) → Nat → List (Nat × Nat)
  run : Nat → Nat → Nat → ℚ → Option A × ℚ
  fin : Option A → Bool

/-- The instrumented record of one bounded invocation inside
`PureModelPortfolio.__call__`: the plan pair, the accountant reading and
duration, the failure list the executing plan was conditioned on
(`condSet`), the failure list observed so far at invocation time
(`obsSet`), whether the plan was freshly derived this iteration
(`fresh`), and the finality of the outcome. -/
structure PMRecord where
  s : Nat
  b : Nat
  elapsedAt : ℚ
  duration : ℚ
  condSet : List (Nat × Nat)
  obsSet : List (Nat × Nat)
  fresh : Bool
  final : Bool
deriving DecidableEq, Repr

/-- Python errors arising in the embedded `PureModelPortfolio` loop:
`plan.pop(0)` on an empty freshly derived plan raises `IndexError`. -/
inductive PMErr where
  | indexError
deriving DecidableEq, Repr

/-- Embedding of the `for i in xrange(self._runs_limit)` loop of
`PureModelPortfolio.__call__`.  Arguments after the fuel: the iteration
index, the accountant's total so far, the pending plan, the failure set
the pending plan was conditioned on, and the current failure list.
Returns the episode result and the trace of invocation records. -/
def pmLoop {A : Type} (env : PMEnv A) :
    Nat → Nat → ℚ → List (Nat × Nat) → List (Nat × Nat) → List (Nat × Nat) →
    Except PMErr (Option A) × List PMRecord
  | 0, _, _, _, _, _ => (Except.ok none, [])
  | fuel + 1, i, elapsed, plan0, cond0, failures =>
    if env.budget ≤ elapsed then (Except.ok none, [])
    else
      let fresh := plan0.isEmpty
      let derived :=
        if plan0.isEmpty then
          let remaining := env.budget - elapsed
          let remaining_b := (ratCeilZ (remaining / env.interval)).toNat
          (env.plan failures remaining_b, failures)
        else (plan0, cond0)
      match derived.1 with
      | [] => (Except.error PMErr.indexError, [])
      | (s, b) :: rest =>
        let remaining := env.budget - elapsed
        let duration := min remaining (((b : ℚ) + 1) * env.interval)
        let out := env.run i s b duration
        let record : PMRecord :=
          ⟨s, b, elapsed, duration, derived.2, failures, fresh, env.fin out.1⟩
        if env.fin out.1 then (Except.ok out.1, [record])
        else
          let next := pmLoop env fuel (i + 1) (elapsed + out.2) rest derived.2
            (failures ++ [(s, b)])
          (next.1, record :: next.2)

/-- The circuit-breaker run count `self._runs_limit = 256` set in
`PureModelPortfolio.__init__`. -/
def pureModelRunsLimit : Nat := 256

/-- Embedding of one `PureModelPortfolio.__call__` episode (the
`regress is None` branch, where `initial_model = self._model`): the loop
starts with zero elapsed time, an empty plan and no failures, bounded by
the runs limit. -/
def pmRun {A : Type} (env : PMEnv A) : Except PMErr (Option A) × List PMRecord :=
  pmLoop env pureModelRunsLimit 0 0 [] [] []

/-! ## `UniformPortfolio.__call__`
    (src/src/python/borg/portfolios.py lines 20-44). -/

/-- One solver process as seen by `UniformPortfolio`: its observable
`elapsed` and `terminated` attributes, the count of `run_then_pause`
calls made on it so far, and its behavior — on the `k`-th call with a
given duration, the answer it returns, the CPU time it consumes, and
whether it is terminated afterwards. -/
structure UProc (A : Type) where
  behavior : Nat → ℚ → Option A × ℚ × Bool
  k : Nat
  elapsed : ℚ
  terminated : Bool

/-- Embedding of `process.run_then_pause(duration)`: consult the
behavior, advance the call count, accumulate elapsed CPU time, record
termination, and hand back the answer. -/
def runThenPause {A : Type} (p : UProc A) (duration : ℚ) : Option A × UProc A :=
  let step := p.behavior p.k duration
  (step.1, ⟨p.behavior, p.k + 1, p.elapsed + step.2.1, step.2.2⟩)

/-- Embedding of the local `finished()` predicate of
`UniformPortfolio.__call__`: the unspent budget has fallen below one
slice, or every process has terminated. -/
def uniformFinished {A : Type} (budget budget_each : ℚ) (ps : List (UProc A)) : Bool :=
  decide (budget - (ps.map (fun p => p.elapsed)).sum < budget_each)
    || ps.all (fun p => p.terminated)

/-- Embedding of the `while not finished()` loop of
`UniformPortfolio.__call__`.  `i` is the position of the round-robin
cycle (`itertools.cycle` over the process list).  The Python loop has no
iteration bound, so the recursion carries fuel: `none` marks fuel
exhaustion (the source would keep looping), `some r` means the source
returns `r`.  The trace lists the process indices actually invoked. -/
def uniformLoop {A : Type} (fin : Option A → Bool) (budget budget_each : ℚ) :
    Nat → Nat → List (UProc A) → Option (Option A) × List Nat
  | 0, _, _ => (none, [])
  | fuel + 1, i, ps =>
    if uniformFinished budget budget_each ps then (some none, [])
    else
      match ps.get? (i % ps.length) with
      | none => (some none, [])
      | some p =>
        if p.terminated then uniformLoop fin budget budget_each fuel (i + 1) ps
        else
          let out := runThenPause p budget_each
          let ps1 := ps.set (i % ps.length) out.2
          if fin out.1 then (some out.1, [i % ps.length])
          else
            let next := uniformLoop fin budget budget_each fuel (i + 1) ps1
            (next.1, i % ps.length :: next.2)

/-- Embedding of `budget_each = budget.cpu_seconds / (len(suite.solvers) * 100)`. -/
def uniformBudgetEach (nSolvers : Nat) (budget : ℚ) : ℚ :=
  budget / ((nSolvers : ℚ) * 100)

/-- Embedding of one `UniformPortfolio.__call__` episode over a list of
freshly started processes, with the given fuel. -/
def uniformRun {A : Type} (fin : Option A → Bool) (budget : ℚ)
    (ps : List (UProc A)) (fuel : Nat) : Option (Option A) × List Nat :=
  uniformLoop fin budget (uniformBudgetEach ps.length budget) fuel 0 ps

/-! ## Concrete instances the theorems evaluate the embeddings on. -/

/-- A solver behavior that never answers. -/
def run0 : Nat → Nat → ℚ → Option Nat := fun _ _ _ => none

/-- Finality as for answer objects: any present answer is final. -/
def fin0 : Option Nat → Bool := fun a => a.isSome

/-- A `PureModelPortfolio` episode whose planner hands back a two-step
plan on an empty failure set (and an empty plan afterwards), whose
solvers never answer and cost one CPU-second per run. -/
def envTwoStep : PMEnv Nat :=
  { budget := 10, interval := 1,
    plan := fun f _ =>
      match f with
      | [] => [(0, 0), (1, 0)]
      | _ :: _ => [],
    run := fun _ _ _ _ => (none, 1),
    fin := fun a => a.isSome }

/-- A `PureModelPortfolio` episode whose planner always hands back the
single-step plan `[(0, 0)]` and whose runs consume no measurable CPU
time and never answer: the circuit breaker is what stops it. -/
def envZeroCost : PMEnv Nat :=
  { budget := 1, interval := 1,
    plan := fun _ _ => [(0, 0)],
    run := fun _ _ _ _ => (none, 0),
    fin := fun _ => false }

/-- A concrete resolved solver whose attempts carry its own concrete
identity and distinctive budget/cost/task/answer fields. -/
def innerSolver0 : InnerSolver Nat Nat :=
  ⟨fun task budget random => ⟨SolverRef.concrete 5, budget + 1, 3, task + 2, some random⟩⟩

/-- An environment registering `innerSolver0` under every name. -/
def envAllNames : SolverEnv Nat Nat := ⟨fun _ => some innerSolver0⟩

/-- An environment with an empty registry. -/
def envEmpty : SolverEnv Nat Nat := ⟨fun _ => none⟩

/-- A solver name used in concrete lookups. -/
def solverName0 : String := "cryptominisat"

/-- A uniform-portfolio process that never answers, consumes one
CPU-second per slice and never terminates. -/
def procSpin : UProc Nat := ⟨fun _ _ => (none, 1, false), 0, 0, false⟩

/-- A uniform-portfolio process that answers finally on its second
invocation (invocation count 1), consuming one CPU-second per slice. -/
def procAnswer2 : UProc Nat :=
  ⟨fun k _ =>
      match k with
      | 1 => (some 7, 1, true)
      | _ => (none, 1, false),
    0, 0, false⟩

/-- A uniform-portfolio process that answers finally on its third
invocation (invocation count 2), consuming one CPU-second per slice. -/
def procAnswer3 : UProc Nat :=
  ⟨fun k _ =>
      match k with
      | 2 => (some 9, 1, true)
      | _ => (none, 1, false),
    0, 0, false⟩

/-- A uniform-portfolio process that terminates (without a final answer)
after its first invocation. -/
def procQuit : UProc Nat := ⟨fun _ _ => (none, 1, true), 0, 0, false⟩

/-- A uniform-portfolio process that never answers and burns 99.75
CPU-seconds per invocation. -/
def procBurn : UProc Nat := ⟨fun _ _ => (none, 399/4, false), 0, 0, false⟩

/-! # Theorems -/

/-- Unfolding lemma: the embedded `PureModelPortfolio` loop at zero fuel. -/
theorem pmLoop_zero {A : Type} (env : PMEnv A) (i : Nat) (elapsed : ℚ)
    (plan0 cond0 failures : List (Nat × Nat)) :
    pmLoop env 0 i elapsed plan0 cond0 failures = (Except.ok none, []) := rfl

/-- Unfolding lemma: one iteration of the embedded `PureModelPortfolio`
loop. -/
theorem pmLoop_succ {A : Type} (env : PMEnv A) (fuel i : Nat) (elapsed : ℚ)
    (plan0 cond0 failures : List (Nat × Nat)) :
    pmLoop env (fuel + 1) i elapsed plan0 cond0 failures =
      (if env.budget ≤ elapsed then (Except.ok none, [])
       else
        let fresh := plan0.isEmpty
        let derived :=
          if plan0.isEmpty then
            let remaining := env.budget - elapsed
            let remaining_b := (ratCeilZ (remaining / env.interval)).toNat
            (env.plan failures remaining_b, failures)
          else (plan0, cond0)
        match derived.1 with
        | [] => (Except.error PMErr.indexError, [])
        | (s, b) :: rest =>
          let remaining := env.budget - elapsed
          let duration := min remaining (((b : ℚ) + 1) * env.interval)
          let out := env.run i s b duration
          let record : PMRecord :=
            ⟨s, b, elapsed, duration, derived.2, failures, fresh, env.fin out.1⟩
          if env.fin out.1 then (Except.ok out.1, [record])
          else
            let next := pmLoop env fuel (i + 1) (elapsed + out.2) rest derived.2
              (failures ++ [(s, b)])
            (next.1, record :: next.2)) := rfl

/-- Unfolding lemma: one iteration of the embedded `UniformPortfolio`
loop. -/
theorem uniformLoop_succ {A : Type} (fin : Option A → Bool) (budget budget_each : ℚ)
    (fuel i : Nat) (ps : List (UProc A)) :
    uniformLoop fin budget budget_each (fuel + 1) i ps =
      (if uniformFinished budget budget_each ps then (some none, [])
       else
        match ps.get? (i % ps.length) with
        | none => (some none, [])
        | some p =>
          if p.terminated then uniformLoop fin budget budget_each fuel (i + 1) ps
          else
            let out := runThenPause p budget_each
            let ps1 := ps.set (i % ps.length) out.2
            if fin out.1 then (some out.1, [i % ps.length])
            else
              let next := uniformLoop fin budget budget_each fuel (i + 1) ps1
              (next.1, i % ps.length :: next.2)) := rfl

/-- C10: for every pseudo-Boolean task, `is_final(task, None)` is `False`;
a present answer is final exactly when its description is SATISFIABLE or
UNSATISFIABLE for a task without an objective, and OPTIMUM FOUND or
UNSATISFIABLE for a task with an objective. -/
theorem C10_pb_is_final :
    (∀ (O C : Type) (objective : Option O),
        pb_is_final objective (none : Option (String × C)) = false)
    ∧ (∀ (O C : Type) (d : String) (c : C),
        pb_is_final (none : Option O) (some (d, c)) = true ↔
          d = "SATISFIABLE" ∨ d = "UNSATISFIABLE")
    ∧ (∀ (O C : Type) (o : O) (d : String) (c : C),
        pb_is_final (some o) (some (d, c)) = true ↔
          d = "OPTIMUM FOUND" ∨ d = "UNSATISFIABLE") := by
  refine ⟨fun O C objective => ?_, fun O C d c => ?_, fun O C o d c => ?_⟩
  · cases objective <;> rfl
  · simp [pb_is_final, List.contains, List.elem_cons, List.elem_nil]
  · simp [pb_is_final, List.contains, List.elem_cons, List.elem_nil]

/-- C9: every call of `LookupPreprocessor.preprocess` fails with an
ImportError, for every name, task, budget, output path, random seed,
environment and resolved-preprocessor behavior: the imported name
`WrappedPreprocessorAttempt` is not among the names the module
`borg.solvers.attempts` defines, so the resolved preprocessor is never
invoked and no wrapped attempt is ever returned. -/
theorem C9_preprocess_import_error {T P : Type} (name : String) (task : T)
    (budget : ℚ) (output_path : String) (random : Nat) (env : PreprocEnv T P) :
    lookupPreprocessor_preprocess name task budget output_path random env =
      Except.error PyErr.importError := by
  have h : wrappedPreprocessorAttemptName ∉ attemptsModuleNames := by decide
  simp [lookupPreprocessor_preprocess, fromAttemptsImport, h]

/-- C7: `LookupSolver.look_up` fails with `UnknownSolverError` exactly
when the name is absent from the environment's registry, and returns the
registered runnable solver when the name is present. -/
theorem C7_look_up {T A : Type} (env : SolverEnv T A) (name : String) :
    (lookupSolver_look_up name env = Except.error LookupErr.unknownSolver ↔
      env.named_solvers name = none)
    ∧ (∀ s, env.named_solvers name = some s →
        lookupSolver_look_up name env = Except.ok s) := by
  cases h : env.named_solvers name <;>
    simp [lookupSolver_look_up, h]

/-- C7 witness: on the empty registry the lookup fails with
`UnknownSolverError`, and on the all-names registry it returns the
registered solver. -/
theorem C7_look_up_witness :
    lookupSolver_look_up solverName0 envEmpty = Except.error LookupErr.unknownSolver
    ∧ lookupSolver_look_up solverName0 envAllNames = Except.ok innerSolver0 :=
  ⟨(C7_look_up envEmpty solverName0).1.mpr rfl,
   (C7_look_up envAllNames solverName0).2 innerSolver0 rfl⟩

/-- C6: whenever the environment's registry contains the handle's name,
`LookupSolver.solve` succeeds with an attempt whose `solver` field is the
name-handle itself, and whose budget, cost, task and answer fields are
those of the inner attempt produced by the resolved solver. -/
theorem C6_lookup_solve_roundtrip {T A : Type} (env : SolverEnv T A)
    (name : String) (s : InnerSolver T A) (task : T) (budget : ℚ) (random : Nat)
    (h : env.named_solvers name = some s) :
    ∃ out, lookupSolver_solve name task budget random env = Except.ok out
      ∧ out.solver = SolverRef.lookup name
      ∧ out.budget = (s.solve task budget random).budget
      ∧ out.cost = (s.solve task budget random).cost
      ∧ out.task = (s.solve task budget random).task
      ∧ out.answer = (s.solve task budget random).answer := by
  have h2 : lookupSolver_solve name task budget random env =
      Except.ok (recycledAttempt (SolverRef.lookup name)
        (s.solve task budget random).budget (s.solve task budget random).cost
        (s.solve task budget random).task (s.solve task budget random).answer) := by
    simp [lookupSolver_solve, lookupSolver_look_up, h, recycledAttempt]
  exact ⟨_, h2, rfl, rfl, rfl, rfl, rfl⟩

/-- C6 witness: the round-trip at a concrete environment, name, task,
budget and seed. -/
theorem C6_lookup_solve_roundtrip_witness :
    ∃ out, lookupSolver_solve solverName0 4 7 11 envAllNames = Except.ok out
      ∧ out.solver = SolverRef.lookup solverName0
      ∧ out.budget = (innerSolver0.solve 4 7 11).budget
      ∧ out.cost = (innerSolver0.solve 4 7 11).cost
      ∧ out.task = (innerSolver0.solve 4 7 11).task
      ∧ out.answer = (innerSolver0.solve 4 7 11).answer :=
  C6_lookup_solve_roundtrip envAllNames solverName0 innerSolver0 4 7 11 rfl

/-- The cost of a plan unfolds over its head step. -/
theorem planCost_cons (s b : Nat) (rest : List (Nat × Nat)) (interval : ℚ) :
    planCost ((s, b) :: rest) interval = ((b : ℚ) + 1) * interval + planCost rest interval := by
  simp [planCost]

/-- With a nonnegative interval, every plan's cost is nonnegative. -/
theorem planCost_nonneg (plan : List (Nat × Nat)) (interval : ℚ) (hint : 0 ≤ interval) :
    0 ≤ planCost plan interval := by
  apply List.sum_nonneg
  intro x hx
  obtain ⟨p, _, rfl⟩ := List.mem_map.mp hx
  have : (0 : ℚ) ≤ (p.2 : ℚ) + 1 := by positivity
  exact mul_nonneg this hint

/-- C2 (amended): for a nonnegative bin interval, every plan whose total
discretized cost is strictly below the episode budget plus the 0.1-second
slack walks to completion: the `remaining - this_budget > -1e-1`
assertion in `OraclePortfolio.__call__` and `PreplanningPortfolio.__call__`
holds before each invocation, so the walk never ends in `assertFailed`. -/
theorem C2_capacity_assertion_amended {A : Type} (runAns : Nat → Nat → ℚ → Option A)
    (fin : Option A → Bool) (interval : ℚ) (plan : List (Nat × Nat)) (k : Nat)
    (budget : ℚ) (hint : 0 ≤ interval)
    (hcap : planCost plan interval < budget + 1 / 10) :
    ∃ res, planWalk runAns fin interval k plan budget = Except.ok res := by
  induction plan generalizing k budget with
  | nil => exact ⟨(none, []), rfl⟩
  | cons hd rest ih =>
    obtain ⟨s, b⟩ := hd
    rw [planCost_cons] at hcap
    have hrest : 0 ≤ planCost rest interval := planCost_nonneg rest interval hint
    have htb : (0 : ℚ) ≤ ((b : ℚ) + 1) * interval := by
      have : (0 : ℚ) ≤ (b : ℚ) + 1 := by positivity
      exact mul_nonneg this hint
    have hassert : budget - ((b : ℚ) + 1) * interval > -(1 / 10) := by linarith
    simp only [planWalk]
    rw [if_pos hassert]
    by_cases hfin : fin (runAns k s (((b : ℚ) + 1) * interval)) = true
    · rw [if_pos hfin]
      exact ⟨_, rfl⟩
    · rw [if_neg hfin]
      obtain ⟨res, hres⟩ := ih (k + 1) (budget - ((b : ℚ) + 1) * interval) (by linarith)
      obtain ⟨r, tr⟩ := res
      rw [hres]
      exact ⟨(r, ⟨s, b, ((b : ℚ) + 1) * interval, budget⟩ :: tr), rfl⟩

/-- C2 counterexample: the claim as stated fails at the slack boundary.
The one-step plan `[(0, 0)]` with interval `1.1` against budget `1` has
cost `1.1 ≤ budget + 0.1`, satisfying the claimed capacity invariant,
yet the walk's assertion `remaining - this_budget > -1e-1` fails
(`1 - 1.1 = -0.1` is not `> -0.1`). -/
theorem C2_counterexample :
    planCost [(0, 0)] (11 / 10) ≤ 1 + 1 / 10
    ∧ planWalk run0 fin0 (11 / 10) 0 [(0, 0)] 1 = Except.error WalkErr.assertFailed := by
  constructor
  · norm_num [planCost]
  · norm_num [planWalk, run0, fin0]

/-- C2 witness: a concrete in-capacity plan walks to completion. -/
theorem C2_capacity_assertion_amended_witness :
    (0 : ℚ) ≤ 1 ∧ planCost [(0, 0)] 1 < 2 + 1 / 10
    ∧ ∃ res, planWalk run0 fin0 1 0 [(0, 0)] 2 = Except.ok res :=
  ⟨by norm_num, by norm_num [planCost],
   C2_capacity_assertion_amended run0 fin0 1 [(0, 0)] 0 2 (by norm_num)
     (by norm_num [planCost])⟩

/-- In every successful Oracle/Preplanning plan walk, each executed step
ran its solver for exactly `(b + 1) * interval` CPU-seconds, with no
`min` against the remaining budget. -/
theorem planWalk_durations {A : Type} (runAns : Nat → Nat → ℚ → Option A)
    (fin : Option A → Bool) (interval : ℚ) :
    ∀ (plan : List (Nat × Nat)) (k : Nat) (remaining : ℚ)
      (res : Option A × List WalkStep),
      planWalk runAns fin interval k plan remaining = Except.ok res →
      ∀ st ∈ res.2, st.duration = ((st.b : ℚ) + 1) * interval := by
  intro plan
  induction plan with
  | nil =>
    intro k remaining res h st hst
    simp only [planWalk] at h
    cases h
    simp at hst
  | cons hd rest ih =>
    intro k remaining res h st hst
    obtain ⟨s, b⟩ := hd
    simp only [planWalk] at h
    by_cases ha : remaining - ((b : ℚ) + 1) * interval > -(1 / 10)
    · rw [if_pos ha] at h
      by_cases hfin : fin (runAns k s (((b : ℚ) + 1) * interval)) = true
      · rw [if_pos hfin] at h
        cases h
        simp only [List.mem_singleton] at hst
        subst hst
        rfl
      · rw [if_neg hfin] at h
        cases hrec : planWalk runAns fin interval (k + 1) rest
            (remaining - ((b : ℚ) + 1) * interval) with
        | error e => rw [hrec] at h; cases h
        | ok res2 =>
          obtain ⟨r, tr⟩ := res2
          rw [hrec] at h
          cases h
          rcases List.mem_cons.mp hst with hst1 | hst2
          · subst hst1; rfl
          · exact ih (k + 1) (remaining - ((b : ℚ) + 1) * interval) (r, tr) hrec st hst2
    · rw [if_neg ha] at h
      cases h

/-- Master invariant of the embedded `PureModelPortfolio` loop, by
induction on the remaining run count.  Under the invariant that the
pending plan's conditioning set is a prefix of the current failure list:
the trace has at most `fuel` records; every record's duration is
`min(remaining, (b + 1) * interval)`, its conditioning set is a prefix
of the failures observed at its invocation (the whole list when its plan
was freshly derived); the first record's observed set is the entry
failure list; consecutive records extend the observed set by exactly the
failed pair; and if all `fuel` iterations ran without a final answer the
loop's result is `None` (not an error). -/
theorem pmLoop_invariants {A : Type} (env : PMEnv A) :
    ∀ (fuel i : Nat) (elapsed : ℚ) (plan0 cond0 failures : List (Nat × Nat)),
      cond0 <+: failures →
      (pmLoop env fuel i elapsed plan0 cond0 failures).2.length ≤ fuel
      ∧ (∀ r ∈ (pmLoop env fuel i elapsed plan0 cond0 failures).2,
          r.duration = min (env.budget - r.elapsedAt) (((r.b : ℚ) + 1) * env.interval)
          ∧ r.condSet <+: r.obsSet
          ∧ (r.fresh = true → r.condSet = r.obsSet))
      ∧ (∀ hd, (pmLoop env fuel i elapsed plan0 cond0 failures).2.head? = some hd →
          hd.obsSet = failures)
      ∧ List.Chain' (fun r r2 => r2.obsSet = r.obsSet ++ [(r.s, r.b)])
          (pmLoop env fuel i elapsed plan0 cond0 failures).2
      ∧ ((pmLoop env fuel i elapsed plan0 cond0 failures).2.length = fuel →
          (∀ r ∈ (pmLoop env fuel i elapsed plan0 cond0 failures).2, r.final = false) →
          (pmLoop env fuel i elapsed plan0 cond0 failures).1 = Except.ok none) := by
  intro fuel
  induction fuel with
  | zero =>
    intro i elapsed plan0 cond0 failures _
    simp [pmLoop_zero]
  | succ fuel ih =>
    intro i elapsed plan0 cond0 failures hpre
    by_cases hb : env.budget ≤ elapsed
    · rw [pmLoop_succ, if_pos hb]
      refine ⟨by simp, by simp, by simp, by simp, ?_⟩
      intro hlen
      simp at hlen
    · rw [pmLoop_succ, if_neg hb]
      by_cases hp : plan0.isEmpty = true
      · rw [if_pos hp]
        dsimp only
        cases hpl : env.plan failures
            (ratCeilZ ((env.budget - elapsed) / env.interval)).toNat with
        | nil =>
          refine ⟨by simp, by simp, by simp, by simp, ?_⟩
          intro hlen
          simp at hlen
        | cons hd rest =>
          obtain ⟨s, b⟩ := hd
          dsimp only
          by_cases hf : env.fin (env.run i s b
              (min (env.budget - elapsed) (((b : ℚ) + 1) * env.interval))).1 = true
          · rw [if_pos hf]
            refine ⟨by simp, ?_, ?_, by simp, ?_⟩
            · intro r hr
              simp only [List.mem_singleton] at hr
              subst hr
              exact ⟨rfl, List.prefix_rfl, fun _ => rfl⟩
            · intro hd2 hhd
              simp only [List.head?_cons, Option.some.injEq] at hhd
              subst hhd
              rfl
            · intro _ hall
              have h1 := hall _ (List.mem_singleton.mpr rfl)
              rw [hf] at h1
              cases h1
          · rw [if_neg hf]
            obtain ⟨ihL, ihR, ihH, ihC, ihN⟩ :=
              ih (i + 1)
                (elapsed + (env.run i s b
                  (min (env.budget - elapsed) (((b : ℚ) + 1) * env.interval))).2)
                rest failures (failures ++ [(s, b)])
                (List.prefix_append failures [(s, b)])
            refine ⟨?_, ?_, ?_, ?_, ?_⟩
            · simpa using Nat.succ_le_succ ihL
            · intro r hr
              rcases List.mem_cons.mp hr with hr1 | hr2
              · subst hr1
                exact ⟨rfl, List.prefix_rfl, fun _ => rfl⟩
              · exact ihR r hr2
            · intro hd2 hhd
              simp only [List.head?_cons, Option.some.injEq] at hhd
              subst hhd
              rfl
            · cases hnext : (pmLoop env fuel (i + 1)
                  (elapsed + (env.run i s b
                    (min (env.budget - elapsed) (((b : ℚ) + 1) * env.interval))).2)
                  rest failures (failures ++ [(s, b)])).2 with
              | nil => simp [hnext]
              | cons hd2 tl2 =>
                dsimp only
                rw [List.chain'_cons]
                constructor
                · have := ihH hd2 (by rw [hnext]; rfl)
                  simpa using this
                · rw [hnext] at ihC
                  exact ihC
            · intro hlen hall
              simp only [List.length_cons, Nat.succ.injEq] at hlen
              exact ihN hlen (fun r hr => hall r (List.mem_cons_of_mem _ hr))
      · rw [if_neg hp]
        cases plan0 with
        | nil => simp at hp
        | cons hd rest =>
          obtain ⟨s, b⟩ := hd
          dsimp only
          by_cases hf : env.fin (env.run i s b
              (min (env.budget - elapsed) (((b : ℚ) + 1) * env.interval))).1 = true
          · rw [if_pos hf]
            refine ⟨by simp, ?_, ?_, by simp, ?_⟩
            · intro r hr
              simp only [List.mem_singleton] at hr
              subst hr
              refine ⟨rfl, hpre, ?_⟩
              intro hfr
              simp [List.isEmpty_cons] at hfr
            · intro hd2 hhd
              simp only [List.head?_cons, Option.some.injEq] at hhd
              subst hhd
              rfl
            · intro _ hall
              have h1 := hall _ (List.mem_singleton.mpr rfl)
              rw [hf] at h1
              cases h1
          · rw [if_neg hf]
            obtain ⟨ihL, ihR, ihH, ihC, ihN⟩ :=
              ih (i + 1)
                (elapsed + (env.run i s b
                  (min (env.budget - elapsed) (((b : ℚ) + 1) * env.interval))).2)
                rest cond0 (failures ++ [(s, b)])
                (hpre.trans (List.prefix_append failures [(s, b)]))
            refine ⟨?_, ?_, ?_, ?_, ?_⟩
            · simpa using Nat.succ_le_succ ihL
            · intro r hr
              rcases List.mem_cons.mp hr with hr1 | hr2
              · subst hr1
                refine ⟨rfl, hpre, ?_⟩
                intro hfr
                simp [List.isEmpty_cons] at hfr
              · exact ihR r hr2
            · intro hd2 hhd
              simp only [List.head?_cons, Option.some.injEq] at hhd
              subst hhd
              rfl
            · cases hnext : (pmLoop env fuel (i + 1)
                  (elapsed + (env.run i s b
                    (min (env.budget - elapsed) (((b : ℚ) + 1) * env.interval))).2)
                  rest cond0 (failures ++ [(s, b)])).2 with
              | nil => simp [hnext]
              | cons hd2 tl2 =>
                dsimp only
                rw [List.chain'_cons]
                constructor
                · have := ihH hd2 (by rw [hnext]; rfl)
                  simpa using this
                · rw [hnext] at ihC
                  exact ihC
            · intro hlen hall
              simp only [List.length_cons, Nat.succ.injEq] at hlen
              exact ihN hlen (fun r hr => hall r (List.mem_cons_of_mem _ hr))

/-- The concrete trace of `envTwoStep`: the first invocation pops the
first step of the freshly derived two-step plan (conditioning set and
observed set both empty); the second invocation pops the leftover step,
so its plan is still conditioned on the empty failure set although one
failure has been observed. -/
theorem envTwoStep_trace :
    (pmRun envTwoStep).2 = [⟨0, 0, 0, 1, [], [], true, false⟩,
      ⟨1, 0, 1, 1, [], [(0, 0)], false, false⟩] := by
  rw [pmRun, pureModelRunsLimit]
  rw [show (256 : Nat) = 255 + 1 from rfl, pmLoop_succ]
  norm_num [envTwoStep, -Prod.mk_zero_zero]
  rw [show (255 : Nat) = 254 + 1 from rfl, pmLoop_succ]
  norm_num [envTwoStep, -Prod.mk_zero_zero]
  rw [show (254 : Nat) = 253 + 1 from rfl, pmLoop_succ]
  norm_num [envTwoStep, -Prod.mk_zero_zero]

/-- C1 counterexample: the claim as stated is false.  In the episode
`envTwoStep` the planner hands back the two-step plan `[(0,0), (1,0)]`;
after the first invocation fails, the second invocation is issued from
the leftover plan — which was conditioned on the empty failure set —
even though the failure `(0,0)` has been observed, so not every
invocation after a failure executes under a plan conditioned on all
failures observed so far. -/
theorem C1_counterexample :
    ¬ (∀ r ∈ (pmRun envTwoStep).2, r.obsSet ≠ [] → r.condSet = r.obsSet) := by
  intro hall
  have h := hall ⟨1, 0, 1, 1, [], [(0, 0)], false, false⟩
    (by rw [envTwoStep_trace]; simp)
  simp at h

/-- C1 (amended): after every non-final invocation the `(solver, bin)`
pair is appended to the failure set (consecutive trace records extend the
observed failure list by exactly the failed pair), but a plan is
re-derived from `initial_model.condition(failures)` only when the current
plan is exhausted; hence every invocation executes under a plan
conditioned on a prefix of the failures observed so far, with equality
exactly guaranteed when its plan was freshly derived that iteration. -/
theorem C1_replanning_amended {A : Type} (env : PMEnv A) :
    (∀ r ∈ (pmRun env).2,
        r.condSet <+: r.obsSet ∧ (r.fresh = true → r.condSet = r.obsSet))
    ∧ List.Chain' (fun r r2 => r2.obsSet = r.obsSet ++ [(r.s, r.b)]) (pmRun env).2 := by
  obtain ⟨_, hR, _, hC, _⟩ :=
    pmLoop_invariants env pureModelRunsLimit 0 0 [] [] [] List.prefix_rfl
  exact ⟨fun r hr => ⟨(hR r hr).2.1, (hR r hr).2.2⟩, hC⟩

/-- C1 amended witness: the amended claim evaluated on the second record
of the `envTwoStep` trace. -/
theorem C1_replanning_amended_witness :
    (⟨1, 0, 1, 1, [], [(0, 0)], false, false⟩ : PMRecord).condSet <+:
      (⟨1, 0, 1, 1, [], [(0, 0)], false, false⟩ : PMRecord).obsSet
    ∧ ((⟨1, 0, 1, 1, [], [(0, 0)], false, false⟩ : PMRecord).fresh = true →
        (⟨1, 0, 1, 1, [], [(0, 0)], false, false⟩ : PMRecord).condSet =
          (⟨1, 0, 1, 1, [], [(0, 0)], false, false⟩ : PMRecord).obsSet) :=
  (C1_replanning_amended envTwoStep).1 ⟨1, 0, 1, 1, [], [(0, 0)], false, false⟩
    (by rw [envTwoStep_trace]; simp)

/-- C4 counterexample: the claim as stated is false for the
plan-walking `PreplanningPortfolio`/`OraclePortfolio` loop.  With
interval `0.1`, remaining budget `0.05` and plan step `(0, 0)`, the
assertion passes (`0.05 - 0.1 = -0.05 > -0.1`) and the solver is run
with `run_then_stop(0.1)`, not for `min(0.05, 0.1) = 0.05`. -/
theorem C4_counterexample :
    planWalk run0 fin0 (1 / 10) 0 [(0, 0)] (1 / 20) =
      Except.ok (none, [⟨0, 0, 1 / 10, 1 / 20⟩])
    ∧ (1 : ℚ) / 10 ≠ min ((1 : ℚ) / 20) (((0 : ℚ) + 1) * (1 / 10)) := by
  constructor
  · norm_num [planWalk, run0, fin0]
  · norm_num

/-- C4 (amended): `PureModelPortfolio` runs each plan step for
`duration = min(remaining_budget, (b + 1) * interval)`, while
`OraclePortfolio` and `PreplanningPortfolio` run each step for exactly
`(b + 1) * interval` CPU-seconds with no `min` against the remaining
budget. -/
theorem C4_duration_amended :
    (∀ (A : Type) (env : PMEnv A), ∀ r ∈ (pmRun env).2,
        r.duration = min (env.budget - r.elapsedAt) (((r.b : ℚ) + 1) * env.interval))
    ∧ (∀ (A : Type) (runAns : Nat → Nat → ℚ → Option A) (fin : Option A → Bool)
        (interval : ℚ) (plan : List (Nat × Nat)) (k : Nat) (remaining : ℚ)
        (res : Option A × List WalkStep),
        planWalk runAns fin interval k plan remaining = Except.ok res →
        ∀ st ∈ res.2, st.duration = ((st.b : ℚ) + 1) * interval) := by
  constructor
  · intro A env r hr
    obtain ⟨_, hR, _, _, _⟩ :=
      pmLoop_invariants env pureModelRunsLimit 0 0 [] [] [] List.prefix_rfl
    exact (hR r hr).1
  · intro A runAns fin interval plan k remaining res h st hst
    exact planWalk_durations runAns fin interval plan k remaining res h st hst

/-- C4 amended witness: both halves evaluated at concrete runs — the
second `envTwoStep` record and the single step of a concrete
preplanned walk. -/
theorem C4_duration_amended_witness :
    (⟨1, 0, 1, 1, [], [(0, 0)], false, false⟩ : PMRecord).duration =
      min (envTwoStep.budget - (⟨1, 0, 1, 1, [], [(0, 0)], false, false⟩ : PMRecord).elapsedAt)
        ((((⟨1, 0, 1, 1, [], [(0, 0)], false, false⟩ : PMRecord).b : ℚ) + 1) * envTwoStep.interval)
    ∧ (⟨0, 0, 1, 2⟩ : WalkStep).duration = (((⟨0, 0, 1, 2⟩ : WalkStep).b : ℚ) + 1) * 1 :=
  ⟨C4_duration_amended.1 Nat envTwoStep ⟨1, 0, 1, 1, [], [(0, 0)], false, false⟩
      (by rw [envTwoStep_trace]; simp),
   C4_duration_amended.2 Nat run0 fin0 1 [(0, 0)] 0 2 (none, [⟨0, 0, 1, 2⟩])
      (by norm_num [planWalk, run0, fin0]) ⟨0, 0, 1, 2⟩ (by simp)⟩

/-- For the zero-cost never-final episode `envZeroCost`, every iteration
of the loop issues one (non-final) invocation, so the trace length equals
the fuel. -/
theorem envZeroCost_loop :
    ∀ (fuel i : Nat) (c f : List (Nat × Nat)),
      (pmLoop envZeroCost fuel i 0 [] c f).2.length = fuel
      ∧ (∀ r ∈ (pmLoop envZeroCost fuel i 0 [] c f).2, r.final = false) := by
  intro fuel
  induction fuel with
  | zero => intro i c f; simp [pmLoop_zero]
  | succ fuel ih =>
    intro i c f
    obtain ⟨ihL, ihF⟩ := ih (i + 1) f (f ++ [(0, 0)])
    rw [pmLoop_succ]
    norm_num [envZeroCost, -Prod.mk_zero_zero]
    exact ⟨ihL, ihF⟩

/-- C5: the runs limit is 256; a `PureModelPortfolio` episode performs at
most that many bounded invocations, and an episode that uses up all of
them without a definitive answer returns `None` rather than raising an
error. -/
theorem C5_runs_limit {A : Type} (env : PMEnv A) :
    pureModelRunsLimit = 256
    ∧ (pmRun env).2.length ≤ pureModelRunsLimit
    ∧ ((pmRun env).2.length = pureModelRunsLimit →
        (∀ r ∈ (pmRun env).2, r.final = false) →
        (pmRun env).1 = Except.ok none) := by
  obtain ⟨hL, _, _, _, hN⟩ :=
    pmLoop_invariants env pureModelRunsLimit 0 0 [] [] [] List.prefix_rfl
  exact ⟨rfl, hL, hN⟩

/-- C5 witness: the zero-cost never-final episode runs all 256
invocations and ends with `None`. -/
theorem C5_runs_limit_witness : (pmRun envZeroCost).1 = Except.ok none := by
  obtain ⟨hl, hf⟩ := envZeroCost_loop pureModelRunsLimit 0 [] []
  exact (C5_runs_limit envZeroCost).2.2 hl hf

/-- Summing a list divided elementwise by a constant divides the sum. -/
theorem listSum_map_div (l : List ℚ) (d : ℚ) :
    (l.map (fun x => x / d)).sum = l.sum / d := by
  induction l with
  | nil => simp
  | cons a tl ih => simp [ih, add_div]

/-- Smoothing preserves the number of bins. -/
theorem smoothedBins_length (counts : List ℚ) :
    (smoothedBins counts).length = counts.length := by
  simp [smoothedBins]

/-- After smoothing, every bin count is strictly positive. -/
theorem smoothedBins_pos (counts : List ℚ) (h2 : 2 ≤ counts.length)
    (hnn : ∀ x ∈ counts, 0 ≤ x) :
    ∀ x ∈ smoothedBins counts, 0 < x := by
  intro x hx
  have hmap : ∀ y ∈ counts.map (fun c => c + smoothingEps), 0 < y := by
    intro y hy
    obtain ⟨c, hc, rfl⟩ := List.mem_map.mp hy
    have := hnn c hc
    have heps : (0 : ℚ) < smoothingEps := by norm_num [smoothingEps]
    linarith
  simp only [smoothedBins] at hx
  rcases List.mem_or_eq_of_mem_set hx with hmem | heq
  · exact hmap x hmem
  · subst heq
    have hidx : (counts.map (fun c => c + smoothingEps)).length - 2 <
        (counts.map (fun c => c + smoothingEps)).length := by
      simp only [List.length_map]
      omega
    have hval : 0 < (counts.map (fun c => c + smoothingEps)).getD
        ((counts.map (fun c => c + smoothingEps)).length - 2) 0 := by
      rw [List.getD_eq_getElem?_getD, List.getElem?_eq_getElem hidx, Option.getD_some]
      exact hmap _ (List.getElem_mem hidx)
    have hboost : (0 : ℚ) < terminalBoost := by norm_num [terminalBoost]
    linarith

/-- After smoothing, the row total is strictly positive. -/
theorem smoothedBins_sum_pos (counts : List ℚ) (h2 : 2 ≤ counts.length)
    (hnn : ∀ x ∈ counts, 0 ≤ x) :
    0 < (smoothedBins counts).sum := by
  apply List.sum_pos _ (smoothedBins_pos counts h2 hnn)
  intro hnil
  have := smoothedBins_length counts
  rw [hnil] at this
  simp at this
  omega

/-- The log argument at curve bin `j` is the fraction of smoothed mass in
the bins after `j`. -/
theorem survivalArg_eq (counts : List ℚ) (hS : (smoothedBins counts).sum ≠ 0) (j : Nat) :
    survivalArg counts j =
      ((smoothedBins counts).drop (j + 1)).sum / (smoothedBins counts).sum := by
  have htd := List.sum_take_add_sum_drop (smoothedBins counts) (j + 1)
  rw [survivalArg, binRates, ← List.map_take, listSum_map_div]
  field_simp
  linarith

/-- C3: the `1e-16` smoothing constant is added to every historical bin
count, and the secondary `1e-2` correction is added to the curve's
terminal bin (the next-to-last column of the counts row, i.e. the final
bin of the success range) before normalization to rates; consequently
every argument of `log(1 - cumulative_rate)` along the curve is strictly
positive (the log is finite), and at the curve's final bin the
probability of eventual success `1 - survival` is strictly positive —
never exactly zero. -/
theorem C3_smoothing (counts : List ℚ) (h2 : 2 ≤ counts.length)
    (hnn : ∀ x ∈ counts, 0 ≤ x) :
    (∀ i, i < counts.length → i ≠ counts.length - 2 →
        (smoothedBins counts).getD i 0 = counts.getD i 0 + smoothingEps)
    ∧ (smoothedBins counts).getD (counts.length - 2) 0 =
        counts.getD (counts.length - 2) 0 + smoothingEps + terminalBoost
    ∧ (∀ j, j + 2 ≤ counts.length → 0 < survivalArg counts j)
    ∧ survivalArg counts (counts.length - 2) < 1 := by
  have hS := smoothedBins_sum_pos counts h2 hnn
  have hpos := smoothedBins_pos counts h2 hnn
  have hlenW : (counts.map (fun c => c + smoothingEps)).length = counts.length := by simp
  refine ⟨?_, ?_, ?_, ?_⟩
  · intro i hi hne
    have hci : counts[i]? = some counts[i] := List.getElem?_eq_getElem hi
    simp only [smoothedBins]
    rw [List.getD_eq_getElem?_getD, List.getElem?_set_ne (by omega),
        List.getElem?_map, hci, List.getD_eq_getElem?_getD, hci]
    simp
  · have hi : counts.length - 2 < counts.length := by omega
    have hci : counts[counts.length - 2]? = some counts[counts.length - 2] :=
      List.getElem?_eq_getElem hi
    simp only [smoothedBins, List.length_map]
    rw [List.getD_eq_getElem?_getD,
        List.getElem?_set_self (by simp only [List.length_map]; omega),
        Option.getD_some]
    simp only [List.getD_eq_getElem?_getD, List.getElem?_map, hci]
    simp [add_assoc]
  · intro j hj
    rw [survivalArg_eq counts hS.ne' j]
    apply div_pos _ hS
    apply List.sum_pos
    · intro x hx
      exact hpos x (List.mem_of_mem_drop hx)
    · intro hnil
      have hld : ((smoothedBins counts).drop (j + 1)).length =
          (smoothedBins counts).length - (j + 1) := List.length_drop _ _
      rw [hnil, smoothedBins_length] at hld
      simp at hld
      omega
  · rw [survivalArg_eq counts hS.ne' (counts.length - 2)]
    rw [div_lt_one hS]
    have htd := List.sum_take_add_sum_drop (smoothedBins counts) (counts.length - 2 + 1)
    have htpos : 0 < ((smoothedBins counts).take (counts.length - 2 + 1)).sum := by
      apply List.sum_pos
      · intro x hx
        exact hpos x (List.mem_of_mem_take hx)
      · intro hnil
        rw [List.take_eq_nil_iff] at hnil
        rcases hnil with h | h
        · omega
        · have := smoothedBins_length counts
          rw [h] at this
          simp at this
          omega
    linarith

/-- C3 witness: the smoothing facts evaluated on the concrete counts row
`[2, 3, 0]` (two success bins and a did-not-finish bin). -/
theorem C3_smoothing_witness :
    (smoothedBins [2, 3, 0]).getD 0 0 = (2 : ℚ) + smoothingEps
    ∧ (smoothedBins [2, 3, 0]).getD 1 0 = (3 : ℚ) + smoothingEps + terminalBoost
    ∧ 0 < survivalArg [2, 3, 0] 1
    ∧ survivalArg [2, 3, 0] 1 < 1 := by
  obtain ⟨ha, hb, hc, hd⟩ := C3_smoothing [2, 3, 0] (by norm_num) (by norm_num)
  refine ⟨?_, ?_, hc 1 (by norm_num), ?_⟩
  · have h0 := ha 0 (by norm_num) (by norm_num)
    simpa using h0
  · simpa using hb
  · simpa using hd

/-- C8: `UniformPortfolio` at 2 solvers and a 200 CPU-second budget.  The
slice is `200 / (2 * 100) = 1` CPU-second.  Four end-to-end episodes:
alternating invocations `[0, 1, 0, 1]` ending as soon as solver 1's
answer is final; skipping of a terminated solver (`[0, 1, 1, 1]`);
returning `None` once the unspent budget falls below one slice
(`200 - 199.5 < 1` after two 99.75-second invocations); and returning
`None` once every process has terminated. -/
theorem C8_uniform_portfolio :
    uniformBudgetEach 2 200 = 1
    ∧ uniformRun fin0 200 [procSpin, procAnswer2] 10 = (some (some 7), [0, 1, 0, 1])
    ∧ uniformRun fin0 200 [procQuit, procAnswer3] 10 = (some (some 9), [0, 1, 1, 1])
    ∧ uniformRun fin0 200 [procBurn, procBurn] 10 = (some none, [0, 1])
    ∧ uniformRun fin0 200 [procQuit, procQuit] 10 = (some none, [0, 1]) := by
  have hbe : uniformBudgetEach 2 200 = 1 := by norm_num [uniformBudgetEach]
  refine ⟨hbe, ?_, ?_, ?_, ?_⟩
  · rw [uniformRun, show ([procSpin, procAnswer2] : List (UProc Nat)).length = 2 from rfl, hbe]
    rw [show (10:Nat) = 9+1 from rfl, uniformLoop_succ]
    norm_num [uniformFinished, runThenPause, procSpin, procAnswer2, fin0]
    rw [show (9:Nat) = 8+1 from rfl, uniformLoop_succ]
    norm_num [uniformFinished, runThenPause, procSpin, procAnswer2, fin0]
    rw [show (8:Nat) = 7+1 from rfl, uniformLoop_succ]
    norm_num [uniformFinished, runThenPause, procSpin, procAnswer2, fin0]
    rw [show (7:Nat) = 6+1 from rfl, uniformLoop_succ]
    norm_num [uniformFinished, runThenPause, procSpin, procAnswer2, fin0]
  · rw [uniformRun, show ([procQuit, procAnswer3] : List (UProc Nat)).length = 2 from rfl, hbe]
    rw [show (10:Nat) = 9+1 from rfl, uniformLoop_succ]
    norm_num [uniformFinished, runThenPause, procQuit, procAnswer3, fin0]
    rw [show (9:Nat) = 8+1 from rfl, uniformLoop_succ]
    norm_num [uniformFinished, runThenPause, procQuit, procAnswer3, fin0]
    rw [show (8:Nat) = 7+1 from rfl, uniformLoop_succ]
    norm_num [uniformFinished, runThenPause, procQuit, procAnswer3, fin0]
    rw [show (7:Nat) = 6+1 from rfl, uniformLoop_succ]
    norm_num [uniformFinished, runThenPause, procQuit, procAnswer3, fin0]
    rw [show (6:Nat) = 5+1 from rfl, uniformLoop_succ]
    norm_num [uniformFinished, runThenPause, procQuit, procAnswer3, fin0]
    rw [show (5:Nat) = 4+1 from rfl, uniformLoop_succ]
    norm_num [uniformFinished, runThenPause, procQuit, procAnswer3, fin0]
  · rw [uniformRun, show ([procBurn, procBurn] : List (UProc Nat)).length = 2 from rfl, hbe]
    rw [show (10:Nat) = 9+1 from rfl, uniformLoop_succ]
    norm_num [uniformFinished, runThenPause, procBurn, fin0]
    rw [show (9:Nat) = 8+1 from rfl, uniformLoop_succ]
    norm_num [uniformFinished, runThenPause, procBurn, fin0]
    rw [show (8:Nat) = 7+1 from rfl, uniformLoop_succ]
    norm_num [uniformFinished, runThenPause, procBurn, fin0]
  · rw [uniformRun, show ([procQuit, procQuit] : List (UProc Nat)).length = 2 from rfl, hbe]
    rw [show (10:Nat) = 9+1 from rfl, uniformLoop_succ]
    norm_num [uniformFinished, runThenPause, procQuit, fin0]
    rw [show (9:Nat) = 8+1 from rfl, uniformLoop_succ]
    norm_num [uniformFinished, runThenPause, procQuit, fin0]
    rw [show (8:Nat) = 7+1 from rfl, uniformLoop_succ]
    norm_num [uniformFinished, runThenPause, procQuit, fin0]
